import Mathlib

/-!
Verification development for the `lsif-lang-server` concurrent decode pipeline
(`src/reader/interner.rs`, `src/reader/deserialize.rs`, `src/reader/reader.rs`,
`src/reader/types.rs`).

Raw input bytes are modelled as `List Char` (exact for the ASCII inputs the
format uses); the interner's shared `HashMap<String, u64>` together with its
`map.len() + 1` id counter is modelled as the list of keys in first-insertion
order, so the id stored for a key is its (1-based) position in that list.
Machine `u64` arithmetic never overflows in reach of these claims, so ids are
`Nat` with the `u64` range enforced where the code parses integers.
-/

/-- Result of `Interner::intern`: `ok` with the id, a `ParseIntError` (`err`),
or a Rust panic (`panic`, reachable for the one-byte input `"` where
`raw[1..raw.len()-1]` is an invalid slice range). -/
inductive InternResult where
  | ok (n : Nat)
  | err
  | panic
deriving DecidableEq

/-- The interner's shared map, as the list of interned strings in
first-insertion order; the id stored with a key is its 1-based index. -/
abbrev InternerMap : Type := List (List Char)

/-- Rust `str::parse::<u64>` on the character view of the bytes: an optional
leading `+`, then one or more ASCII digits, value within `u64` range;
anything else (including the empty string and a `-` sign) is an error. -/
def parseU64 (cs : List Char) : Option Nat :=
  let ds := match cs with
    | '+' :: rest => rest
    | _ => cs
  if ds.isEmpty then none
  else if ds.all Char.isDigit then
    let n := ds.foldl (fun a c => a * 10 + (c.toNat - '0'.toNat)) 0
    if n < 2 ^ 64 then some n else none
  else none

/-- Lookup of a key in the modelled map, returning the stored id (1-based
first-insertion position), as `HashMap::get` does in `Interner::intern`. -/
def lookupId (σ : InternerMap) (s : List Char) : Option Nat :=
  match σ with
  | [] => none
  | t :: rest => if t = s then some 1 else (lookupId rest s).map (· + 1)

/-- `Interner::intern` (src/reader/interner.rs:30-54): empty input is id `0`;
input not starting with a quote byte is parsed as `u64`; quoted input is
stripped of its first and last byte, returned directly if the inner text
parses as `u64`, and otherwise looked up in the shared map, inserting it with
id `map.len() + 1` when absent. The single byte `"` makes `raw[1..raw.len()-1]`
panic before the map is touched. -/
def intern (σ : InternerMap) (raw : List Char) : InternResult × InternerMap :=
  match raw with
  | [] => (.ok 0, σ)
  | c :: rest =>
    if c ≠ '"' then
      match parseU64 (c :: rest) with
      | some n => (.ok n, σ)
      | none => (.err, σ)
    else if rest.isEmpty then (.panic, σ)
    else
      let s := rest.dropLast
      match parseU64 s with
      | some n => (.ok n, σ)
      | none =>
        match lookupId σ s with
        | some id => (.ok id, σ)
        | none => (.ok (List.length σ + 1), σ ++ [s])

/-- Running a sequence of `intern` calls on one instance, collecting each
call's result and threading the shared map. -/
def internRun (σ : InternerMap) : List (List Char) → List InternResult × InternerMap
  | [] => ([], σ)
  | raw :: rest =>
    ((intern σ raw).1 :: (internRun (intern σ raw).2 rest).1,
      (internRun (intern σ raw).2 rest).2)

/-- The raw byte form of a JSON-quoted string: a quote, the contents, a quote. -/
def quoteRaw (s : List Char) : List Char := '"' :: (s ++ ['"'])

/-- serde_json numbers as seen through `Value::as_u64`: `uint` holds a
non-negative integer within `u64` range; `nonU64` stands for every other
number (negative integers and floats), for which `as_u64` is `None`. -/
inductive JNum where
  | uint (n : Nat)
  | nonU64
deriving DecidableEq

/-- A parsed JSON value (`serde_json::value::Value`). -/
inductive JValue where
  | null
  | bool (b : Bool)
  | num (n : JNum)
  | str (s : String)
  | arr (xs : List JValue)
  | obj (fields : List (String × JValue))

/-- Field access on a parsed JSON object, as serde's struct deserializers
bind fields by name; extra fields are ignored. -/
def getField (fs : List (String × JValue)) (key : String) : Option JValue :=
  match fs with
  | [] => none
  | (k, v) :: rest => if k = key then some v else getField rest key

/-- `Value::as_u64`. -/
def asU64 (v : JValue) : Option Nat :=
  match v with
  | .num (.uint n) => some n
  | _ => none

/-- serde deserialization of a `u32` field (used by `lsp_types::Position`):
the value must be an integer within `u32` range. -/
def asU32 (v : JValue) : Option Nat :=
  match v with
  | .num (.uint n) => if n < 2 ^ 32 then some n else none
  | _ => none

/-- `ProtocolError` (src/reader/types.rs:15-19); the `String` payloads of
`JSONParse` and `Other` carry only a display message and are not modelled. -/
inductive ProtocolError where
  | IDParse
  | JSONParse
  | Other
deriving DecidableEq

/-- `Edge` payload (src/reader/types.rs:60-65). -/
structure Edge where
  out_v : Nat
  in_v : Nat
  in_vs : List Nat
  document : Nat
deriving DecidableEq

/-- `MetaData` payload (src/reader/types.rs:68-71). -/
structure MetaData where
  version : String
  project_root : String
deriving DecidableEq

/-- `Range` payload (src/reader/types.rs:74-79); the `u32` coordinates are
`Nat` bounded at parse time. -/
structure Range where
  start_line : Nat
  start_character : Nat
  end_line : Nat
  end_character : Nat
deriving DecidableEq

/-- `Moniker` payload (src/reader/types.rs:85-89). -/
structure Moniker where
  kind : String
  scheme : String
  identifier : String
deriving DecidableEq

/-- `PackageInformation` payload (src/reader/types.rs:92-95). -/
structure PackageInformation where
  name : String
  version : String
deriving DecidableEq

/-- `Diagnostic` (src/reader/types.rs:98-107); never constructed by the
decoder, which only ever emits an empty diagnostics list. -/
structure Diagnostic where
  severity : Nat
  code : String
  message : String
  source : String
  start_line : Nat
  start_character : Nat
  end_line : Nat
  end_character : Nat
deriving DecidableEq

/-- `Payload` (src/reader/types.rs:48-57); `Document` holds the uri string. -/
inductive Payload where
  | edge (e : Edge)
  | metaData (m : MetaData)
  | range (r : Range)
  | document (uri : String)
  | resultSet
  | moniker (m : Moniker)
  | packageInformation (p : PackageInformation)
  | diagnostics (ds : List Diagnostic)
deriving DecidableEq

/-- `Element` (src/reader/types.rs:40-45). -/
structure Element where
  id : Nat
  el_type : String
  label : String
  payload : Option Payload
deriving DecidableEq

/-- Result of decoding: the decoded value, a typed `ProtocolError`, or a Rust
panic (an `unwrap` on `None`/`Err` in the source). -/
inductive DecodeResult (α : Type) where
  | ok (a : α)
  | err (e : ProtocolError)
  | panic
deriving DecidableEq

/-- Abstraction of `url::Url::parse` (external `url` crate) as used by
`deserialize_document`: models the mandatory `scheme:` prefix (an ASCII
letter, then letters/digits/`+`/`-`/`.`, then a colon); the crate's deeper
per-scheme validation is not modelled, and no claim depends on it. -/
def urlSchemeRest (cs : List Char) : Bool :=
  match cs with
  | [] => false
  | c :: rest =>
    if c = ':' then true
    else (c.isAlphanum || c = '+' || c = '-' || c = '.') && urlSchemeRest rest

/-- Validity of a uri string for the modelled `Url::parse`. -/
def urlValid (s : String) : Bool :=
  match s.data with
  | [] => false
  | c :: rest => c.isAlpha && urlSchemeRest rest

/-- `deserialize_metadata` (src/reader/deserialize.rs:136-150). -/
def deserialize_metadata (line : JValue) : Except ProtocolError Payload :=
  match line with
  | .obj fs =>
    match getField fs "version", getField fs "projectRoot" with
    | some (.str v), some (.str pr) => .ok (.metaData ⟨v, pr⟩)
    | _, _ => .error .JSONParse
  | _ => .error .JSONParse

/-- `deserialize_document` (src/reader/deserialize.rs:152-161). -/
def deserialize_document (line : JValue) : Except ProtocolError Payload :=
  match line with
  | .obj fs =>
    match getField fs "uri" with
    | some (.str u) => if urlValid u then .ok (.document u) else .error .JSONParse
    | _ => .error .JSONParse
  | _ => .error .JSONParse

/-- serde deserialization of an `lsp_types::Position` object. -/
def parsePosition (v : JValue) : Option (Nat × Nat) :=
  match v with
  | .obj fs =>
    match getField fs "line", getField fs "character" with
    | some l, some c =>
      match asU32 l, asU32 c with
      | some ln, some ch => some (ln, ch)
      | _, _ => none
    | _, _ => none
  | _ => none

/-- `deserialize_range` (src/reader/deserialize.rs:163-172), deserializing an
`lsp_types::Range` (`start` and `end` positions) from the record. -/
def deserialize_range (line : JValue) : Except ProtocolError Payload :=
  match line with
  | .obj fs =>
    match getField fs "start", getField fs "end" with
    | some s, some e =>
      match parsePosition s, parsePosition e with
      | some (sl, sc), some (el, ec) => .ok (.range ⟨sl, sc, el, ec⟩)
      | _, _ => .error .JSONParse
    | _, _ => .error .JSONParse
  | _ => .error .JSONParse

/-- `deserialize_hover` (src/reader/deserialize.rs:174-176): unconditionally
the generic `anyhow` error, which converts to `ProtocolError::Other`. -/
def deserialize_hover (_line : JValue) : Except ProtocolError Payload :=
  .error .Other

/-- `deserialize_moniker` (src/reader/deserialize.rs:178-197): an empty
`scheme` is normalized to `"local"`. -/
def deserialize_moniker (line : JValue) : Except ProtocolError Payload :=
  match line with
  | .obj fs =>
    match getField fs "kind", getField fs "scheme", getField fs "identifier" with
    | some (.str k), some (.str sc), some (.str i) =>
      .ok (.moniker ⟨k, if sc = "" then "local" else sc, i⟩)
    | _, _, _ => .error .JSONParse
  | _ => .error .JSONParse

/-- `deserialize_package_info` (src/reader/deserialize.rs:199-212). -/
def deserialize_package_info (line : JValue) : Except ProtocolError Payload :=
  match line with
  | .obj fs =>
    match getField fs "name", getField fs "version" with
    | some (.str n), some (.str v) => .ok (.packageInformation ⟨n, v⟩)
    | _, _ => .error .JSONParse
  | _ => .error .JSONParse

/-- `deserialize_diagnostics` (src/reader/deserialize.rs:214-224): parses the
`packageInformation`-shaped struct `{name, version}` from the record, ignores
it, and yields an empty diagnostics list. -/
def deserialize_diagnostics (line : JValue) : Except ProtocolError Payload :=
  match line with
  | .obj fs =>
    match getField fs "name", getField fs "version" with
    | some (.str _), some (.str _) => .ok (.diagnostics [])
    | _, _ => .error .JSONParse
  | _ => .error .JSONParse

/-- The `VERTEX_DESERIALIZERS` dispatch table (src/reader/deserialize.rs:16-31)
as a lookup from label to that label's decoder. -/
def vertexDeserializers (label : String) :
    Option (JValue → Except ProtocolError Payload) :=
  if label = "metaData" then some deserialize_metadata
  else if label = "document" then some deserialize_document
  else if label = "range" then some deserialize_range
  else if label = "hoverResult" then some deserialize_hover
  else if label = "moniker" then some deserialize_moniker
  else if label = "packageInformation" then some deserialize_package_info
  else if label = "diagnosticResult" then some deserialize_diagnostics
  else none

/-- Resolution of an id-bearing JSON value — the pattern at
src/reader/deserialize.rs:45-50 (envelope `id`) and 83-109 (`outV`, `inV`,
`document`): the contents of a JSON string are interned; any other value goes
through `Value::as_u64().unwrap()`, which panics when the value is not an
integer in `u64` range. -/
def resolveIdValue (σ : InternerMap) (v : JValue) : InternResult × InternerMap :=
  match v with
  | .str s => intern σ s.data
  | v =>
    match asU64 v with
    | some n => (.ok n, σ)
    | none => (.panic, σ)

/-- Resolution of an optional edge field (`inV`, `document`): an absent field
is the sentinel `0` (src/reader/deserialize.rs:89-109). -/
def resolveOptField (σ : InternerMap) (v : Option JValue) :
    InternResult × InternerMap :=
  match v with
  | none => (.ok 0, σ)
  | some v => resolveIdValue σ v

/-- Per-element resolution of the `inVs` array
(src/reader/deserialize.rs:111-126): string elements are interned with
`.unwrap()`, so an interner parse error there is a panic, and non-string
elements go through `as_u64().unwrap()`; `none` is a panic. -/
def resolveInVs (σ : InternerMap) (xs : List JValue) :
    Option (List Nat) × InternerMap :=
  match xs with
  | [] => (some [], σ)
  | v :: rest =>
    match resolveIdValue σ v with
    | (.ok n, σ₁) =>
      match resolveInVs σ₁ rest with
      | (some ns, σ₂) => (some (n :: ns), σ₂)
      | (none, σ₂) => (none, σ₂)
    | (_, σ₁) => (none, σ₁)

/-- The `in_vs` step of `deserialize_edge`
(`payload.in_vs.map_or_else(|| Vec::new(), …)`, src/reader/deserialize.rs:
111-126): an absent `inVs` is the empty list, a present one is resolved
element by element. -/
def resolveInVsOpt (σ : InternerMap) (invsOpt : Option (List JValue)) :
    Option (List Nat) × InternerMap :=
  match invsOpt with
  | none => (some [], σ)
  | some xs => resolveInVs σ xs

/-- serde parse of the optional `inVs` field of struct `EdgePayload`
(`Option<Vec<Value>>`): absent is fine, present requires an array; the outer
`none` is a struct-level parse error. -/
def parseInVsField (fs : List (String × JValue)) : Option (Option (List JValue)) :=
  match getField fs "inVs" with
  | none => some none
  | some (.arr xs) => some (some xs)
  | some _ => none

/-- `deserialize_edge` (src/reader/deserialize.rs:68-134): serde first parses
the `EdgePayload` struct (`outV` required, `inV`/`inVs`/`document` optional),
then resolves `out_v`, `in_v`, `document` and `in_vs` in source order,
threading the shared interner. -/
def deserialize_edge (σ : InternerMap) (line : JValue) :
    DecodeResult Payload × InternerMap :=
  match line with
  | .obj fs =>
    match getField fs "outV", parseInVsField fs with
    | none, _ => (.err .JSONParse, σ)
    | some _, none => (.err .JSONParse, σ)
    | some ov, some invsOpt =>
      match resolveIdValue σ ov with
      | (.err, σ') => (.err .IDParse, σ')
      | (.panic, σ') => (.panic, σ')
      | (.ok nov, σ₁) =>
        match resolveOptField σ₁ (getField fs "inV") with
        | (.err, σ') => (.err .IDParse, σ')
        | (.panic, σ') => (.panic, σ')
        | (.ok niv, σ₂) =>
          match resolveOptField σ₂ (getField fs "document") with
          | (.err, σ') => (.err .IDParse, σ')
          | (.panic, σ') => (.panic, σ')
          | (.ok ndoc, σ₃) =>
            match resolveInVsOpt σ₃ invsOpt with
            | (some ivs, σ₄) => (.ok (.edge ⟨nov, niv, ivs, ndoc⟩), σ₄)
            | (none, σ₄) => (.panic, σ₄)
  | _ => (.err .JSONParse, σ)

/-- The generic envelope of every record (struct `JSONPayload` inside
`deserialize_element`, src/reader/deserialize.rs:34-41): `id` is any JSON
value, `type` and `label` are strings; all three are required. -/
structure Envelope where
  idv : JValue
  ty : String
  label : String

/-- serde parse of the envelope struct from the record. -/
def parseEnvelope (line : JValue) : Option Envelope :=
  match line with
  | .obj fs =>
    match getField fs "id", getField fs "type", getField fs "label" with
    | some i, some (.str t), some (.str l) => some ⟨i, t, l⟩
    | _, _, _ => none
  | _ => none

/-- The vertex-side payload step of `deserialize_element`
(src/reader/deserialize.rs:58-62), stated standalone: dispatch the label
through `VERTEX_DESERIALIZERS`, with an absent payload on an unknown label. -/
def vertexPayloadStep (σ₁ : InternerMap) (n : Nat) (env : Envelope)
    (line : JValue) : DecodeResult Element × InternerMap :=
  match vertexDeserializers env.label with
  | none => (.ok ⟨n, env.ty, env.label, none⟩, σ₁)
  | some f =>
    match f line with
    | .ok p => (.ok ⟨n, env.ty, env.label, some p⟩, σ₁)
    | .error e => (.err e, σ₁)

/-- `deserialize_element` (src/reader/deserialize.rs:33-66): parse the
envelope; resolve `id` (a string id is interned, anything else goes through
`as_u64().unwrap()`); if `type` is `"edge"` decode the uniform edge shape,
otherwise dispatch the label through `VERTEX_DESERIALIZERS`, with an absent
payload on an unknown label. -/
def deserialize_element (σ : InternerMap) (line : JValue) :
    DecodeResult Element × InternerMap :=
  match parseEnvelope line with
  | none => (.err .JSONParse, σ)
  | some env =>
    match resolveIdValue σ env.idv with
    | (.err, σ') => (.err .IDParse, σ')
    | (.panic, σ') => (.panic, σ')
    | (.ok n, σ₁) =>
      if env.ty = "edge" then
        match deserialize_edge σ₁ line with
        | (.ok p, σ₂) => (.ok ⟨n, env.ty, env.label, some p⟩, σ₂)
        | (.err e, σ₂) => (.err e, σ₂)
        | (.panic, σ₂) => (.panic, σ₂)
      else
        match vertexDeserializers env.label with
        | none => (.ok ⟨n, env.ty, env.label, none⟩, σ₁)
        | some f =>
          match f line with
          | .ok p => (.ok ⟨n, env.ty, env.label, some p⟩, σ₁)
          | .error e => (.err e, σ₁)

/-- Sequential decode of every line in input order against one shared
interner — the reference order the spec compares the pipeline against
("decoding each line independently and in order"). -/
def decodeAll (σ : InternerMap) (lines : List JValue) :
    List (DecodeResult Element) × InternerMap :=
  match lines with
  | [] => ([], σ)
  | l :: rest =>
    ((deserialize_element σ l).1 :: (decodeAll (deserialize_element σ l).2 rest).1,
      (decodeAll (deserialize_element σ l).2 rest).2)

/-- The file-reader thread's slot tagging (src/reader/reader.rs:54-75): line
`i` is sent with slot `i % WORKER_COUNT`. -/
def slotted (wc : Nat) (lines : List JValue) : List (Nat × JValue) :=
  (List.enum lines).map (fun p => (p.1 % wc, p.2))

/-- One decode round: each of the batch's lines is decoded and its
`(slot, result)` pair pushed to the results queue; the shared interner is
threaded through the workers (one arrival order is modelled — the claim
settled below does not depend on it). -/
def decodeBatch (σ : InternerMap) (batch : List (Nat × JValue)) :
    List (Nat × DecodeResult Element) × InternerMap :=
  match batch with
  | [] => ([], σ)
  | (s, l) :: rest =>
    ((s, (deserialize_element σ l).1)
        :: (decodeBatch (deserialize_element σ l).2 rest).1,
      (decodeBatch (deserialize_element σ l).2 rest).2)

/-- A single `elements[idx] = v` store of the aggregator thread
(src/reader/reader.rs:139): Rust's `IndexMut` on `Vec` panics (`none`) when
`idx` is not below the vector's length. -/
def sequencerWrite (buf : List (DecodeResult Element)) (i : Nat)
    (x : DecodeResult Element) : Option (List (DecodeResult Element)) :=
  if i < buf.length then some (buf.set i x) else none

/-- The aggregator's drain loop (src/reader/reader.rs:132-140), writing each
received `(slot, result)` into the reorder buffer. -/
def drainBatch (buf : List (DecodeResult Element)) :
    List (Nat × DecodeResult Element) → Option (List (DecodeResult Element))
  | [] => some buf
  | (i, x) :: rest =>
    match sequencerWrite buf i x with
    | none => none
    | some b => drainBatch b rest

/-- The aggregator's emit loop (src/reader/reader.rs:142-149): read
`elements[0] .. elements[WORKER_COUNT-1]` in slot order; an out-of-range read
panics (`none`). -/
def emitBatch (wc : Nat) (buf : List (DecodeResult Element)) :
    Option (List (DecodeResult Element)) :=
  (List.range wc).mapM buf.get?

/-- The `read_lines` pipeline (src/reader/reader.rs:33-157) on slot-tagged
lines: per round, `WORKER_COUNT` lines are pulled and decoded, then the
aggregator drains the round's results into its reorder buffer — a `Vec`
created by `Vec::with_capacity(*WORKER_COUNT)` and therefore of length 0 —
and emits slots `0..WORKER_COUNT` to the output channel. `none` models a
thread panic, after which nothing further reaches the output channel. -/
def read_lines_go (wc : Nat) (σ : InternerMap) (fuel : Nat)
    (slines : List (Nat × JValue)) : Option (List (DecodeResult Element)) :=
  match fuel, slines with
  | _, [] => some []
  | 0, _ :: _ => some []
  | f + 1, p :: ps =>
    let batch := (p :: ps).take wc
    let rest := (p :: ps).drop wc
    let (results, σ₁) := decodeBatch σ batch
    match drainBatch [] results with
    | none => none
    | some buf =>
      match emitBatch wc buf with
      | none => none
      | some out =>
        match read_lines_go wc σ₁ f rest with
        | none => none
        | some outs => some (out ++ outs)

/-- The round loop of `read_lines`, entered with fuel equal to the number of
lines: with `WORKER_COUNT ≥ 1` each round consumes at least one line, so the
fuel (a structural-termination artifact) never runs out before the input
does. -/
def read_lines (wc : Nat) (σ : InternerMap) (slines : List (Nat × JValue)) :
    Option (List (DecodeResult Element)) :=
  match wc with
  | 0 => some []
  | w + 1 => read_lines_go (w + 1) σ slines.length slines

/-- The whole pipeline entry (`read_async` → `read_lines`): tag lines with
slots, then run the rounds. -/
def pipelineModel (wc : Nat) (σ : InternerMap) (lines : List JValue) :
    Option (List (DecodeResult Element)) :=
  read_lines wc σ (slotted wc lines)

/-- The frame effect of `intern` on the shared mapping as claim C10 states
it, written from the claim's words for comparison with `intern` itself: the
map is unchanged for empty input, unquoted input, quoted input whose inner
text parses as an unsigned integer, and a quoted non-numeric string already
present; it grows by exactly the one new entry when a quoted non-numeric
string is absent. (The one-byte input `"`, on which the code panics before
taking the lock, also leaves the map unchanged.) -/
def internMapEffect (σ : InternerMap) (raw : List Char) : InternerMap :=
  match raw with
  | [] => σ
  | c :: rest =>
    if c ≠ '"' then σ
    else if rest.isEmpty then σ
    else
      match parseU64 rest.dropLast with
      | some _ => σ
      | none =>
        match lookupId σ rest.dropLast with
        | some _ => σ
        | none => σ ++ [rest.dropLast]

theorem lookupId_pos {σ : InternerMap} {s : List Char} {n : Nat}
    (h : lookupId σ s = some n) : 1 ≤ n := by
  induction σ generalizing n with
  | nil => simp [lookupId] at h
  | cons t rest ih =>
    simp only [lookupId] at h
    by_cases ht : t = s
    · rw [if_pos ht] at h
      injection h with h
      omega
    · rw [if_neg ht] at h
      obtain ⟨m, _, hmn⟩ := Option.map_eq_some'.mp h
      omega

theorem lookupId_append {σ : InternerMap} {s : List Char} {n : Nat}
    (δ : InternerMap) (h : lookupId σ s = some n) :
    lookupId (σ ++ δ) s = some n := by
  induction σ generalizing n with
  | nil => simp [lookupId] at h
  | cons t rest ih =>
    simp only [lookupId, List.cons_append] at h ⊢
    by_cases ht : t = s
    · simpa [ht] using h
    · rw [if_neg ht] at h ⊢
      obtain ⟨m, hm, hmn⟩ := Option.map_eq_some'.mp h
      simp only [List.append_eq]
      rw [ih hm]
      simpa using hmn

theorem lookupId_insert {σ : InternerMap} {s : List Char}
    (h : lookupId σ s = none) :
    lookupId (σ ++ [s]) s = some (σ.length + 1) := by
  induction σ with
  | nil => simp [lookupId]
  | cons t rest ih =>
    simp only [lookupId] at h
    by_cases ht : t = s
    · simp [ht] at h
    · rw [if_neg ht, Option.map_eq_none'] at h
      simp only [List.cons_append, lookupId, if_neg ht, List.append_eq, ih h,
        Option.map_some', List.length_cons]

theorem intern_unquoted {c : Char} (hc : c ≠ '"') (σ : InternerMap)
    (rest : List Char) :
    intern σ (c :: rest) =
      match parseU64 (c :: rest) with
      | some n => (InternResult.ok n, σ)
      | none => (InternResult.err, σ) := by
  simp [intern, hc]

theorem intern_quoted_raw (σ : InternerMap) {rest : List Char}
    (hre : rest.isEmpty = false) :
    intern σ ('"' :: rest) =
      match parseU64 rest.dropLast with
      | some n => (InternResult.ok n, σ)
      | none =>
        match lookupId σ rest.dropLast with
        | some id => (InternResult.ok id, σ)
        | none => (InternResult.ok (σ.length + 1), σ ++ [rest.dropLast]) := by
  simp [intern, hre]

theorem quoteRaw_isEmpty (s : List Char) : (s ++ ['"']).isEmpty = false := by
  cases s <;> simp

theorem quoteRaw_dropLast (s : List Char) : (s ++ ['"']).dropLast = s := by
  simp

theorem intern_quoted (σ : InternerMap) (s : List Char)
    (h : parseU64 s = none) :
    intern σ (quoteRaw s) =
      match lookupId σ s with
      | some id => (InternResult.ok id, σ)
      | none => (InternResult.ok (σ.length + 1), σ ++ [s]) := by
  rw [quoteRaw, intern_quoted_raw σ (quoteRaw_isEmpty s), quoteRaw_dropLast, h]

theorem intern_extends (σ : InternerMap) (raw : List Char) :
    ∃ δ, (intern σ raw).2 = σ ++ δ := by
  cases raw with
  | nil => exact ⟨[], by simp [intern]⟩
  | cons c rest =>
    by_cases hc : c = '"'
    · subst hc
      cases hre : rest.isEmpty with
      | true => exact ⟨[], by simp [intern, hre]⟩
      | false =>
        rw [intern_quoted_raw σ hre]
        cases hp : parseU64 rest.dropLast with
        | some m => exact ⟨[], by simp⟩
        | none =>
          cases hl : lookupId σ rest.dropLast with
          | some id => exact ⟨[], by simp⟩
          | none => exact ⟨[rest.dropLast], by simp⟩
    · rw [intern_unquoted hc]
      cases hp : parseU64 (c :: rest) with
      | some m => exact ⟨[], by simp⟩
      | none => exact ⟨[], by simp⟩

theorem intern_stable {σ σ₁ : InternerMap} {raw : List Char} {n : Nat}
    (δ : InternerMap) (h : intern σ raw = (.ok n, σ₁)) :
    intern (σ₁ ++ δ) raw = (.ok n, σ₁ ++ δ) := by
  cases raw with
  | nil =>
    simp only [intern, Prod.mk.injEq, InternResult.ok.injEq] at h
    obtain ⟨hn, hσ⟩ := h
    subst hσ
    simp [intern, hn]
  | cons c rest =>
    by_cases hc : c = '"'
    · subst hc
      cases hre : rest.isEmpty with
      | true =>
        cases rest with
        | nil => simp [intern] at h
        | cons a l => simp at hre
      | false =>
        rw [intern_quoted_raw σ hre] at h
        rw [intern_quoted_raw (σ₁ ++ δ) hre]
        cases hp : parseU64 rest.dropLast with
        | some m =>
          rw [hp] at h
          simp only [Prod.mk.injEq, InternResult.ok.injEq] at h
          obtain ⟨hm, hσ⟩ := h
          subst hσ
          simp [hm]
        | none =>
          rw [hp] at h
          cases hl : lookupId σ rest.dropLast with
          | some id =>
            rw [hl] at h
            simp only [Prod.mk.injEq, InternResult.ok.injEq] at h
            obtain ⟨hm, hσ⟩ := h
            subst hσ
            rw [lookupId_append δ hl]
            simp [hm]
          | none =>
            rw [hl] at h
            simp only [Prod.mk.injEq, InternResult.ok.injEq] at h
            obtain ⟨hm, hσ⟩ := h
            subst hσ
            rw [lookupId_append δ (lookupId_insert hl)]
            simp [hm]
    · rw [intern_unquoted hc] at h
      rw [intern_unquoted hc]
      cases hp : parseU64 (c :: rest) with
      | some m =>
        rw [hp] at h
        simp only [Prod.mk.injEq, InternResult.ok.injEq] at h
        obtain ⟨hm, hσ⟩ := h
        subst hσ
        simp [hm]
      | none =>
        rw [hp] at h
        simp at h

theorem intern_quoted_ok {σ σ' : InternerMap} {s : List Char} {n : Nat}
    (hs : parseU64 s = none) (h : intern σ (quoteRaw s) = (.ok n, σ')) :
    lookupId σ' s = some n := by
  rw [intern_quoted σ s hs] at h
  cases hl : lookupId σ s with
  | some id =>
    rw [hl] at h
    simp only [Prod.mk.injEq, InternResult.ok.injEq] at h
    obtain ⟨hn, hσ⟩ := h
    subst hσ
    rw [hl, hn]
  | none =>
    rw [hl] at h
    simp only [Prod.mk.injEq, InternResult.ok.injEq] at h
    obtain ⟨hn, hσ⟩ := h
    subst hσ
    rw [lookupId_insert hl, hn]

theorem internRun_extends (σ : InternerMap) (raws : List (List Char)) :
    ∃ δ, (internRun σ raws).2 = σ ++ δ := by
  induction raws generalizing σ with
  | nil => exact ⟨[], by simp [internRun]⟩
  | cons r rest ih =>
    obtain ⟨δ₁, h₁⟩ := intern_extends σ r
    obtain ⟨δ₂, h₂⟩ := ih (intern σ r).2
    refine ⟨δ₁ ++ δ₂, ?_⟩
    simp only [internRun]
    rw [h₂, h₁, List.append_assoc]

theorem lookupId_inj {σ : InternerMap} {s₁ s₂ : List Char} {n : Nat}
    (h₁ : lookupId σ s₁ = some n) (h₂ : lookupId σ s₂ = some n) : s₁ = s₂ := by
  induction σ generalizing n with
  | nil => simp [lookupId] at h₁
  | cons t rest ih =>
    simp only [lookupId] at h₁ h₂
    by_cases ht₁ : t = s₁ <;> by_cases ht₂ : t = s₂
    · exact ht₁ ▸ ht₂
    · rw [if_pos ht₁] at h₁
      rw [if_neg ht₂] at h₂
      injection h₁ with h₁
      obtain ⟨m, hm, hmn⟩ := Option.map_eq_some'.mp h₂
      have := lookupId_pos hm
      omega
    · rw [if_neg ht₁] at h₁
      rw [if_pos ht₂] at h₂
      injection h₂ with h₂
      obtain ⟨m, hm, hmn⟩ := Option.map_eq_some'.mp h₁
      have := lookupId_pos hm
      omega
    · rw [if_neg ht₁] at h₁
      rw [if_neg ht₂] at h₂
      obtain ⟨m₁, hm₁, hn₁⟩ := Option.map_eq_some'.mp h₁
      obtain ⟨m₂, hm₂, hn₂⟩ := Option.map_eq_some'.mp h₂
      exact ih hm₁ (by rw [show m₂ = m₁ by omega] at hm₂; exact hm₂)

theorem internRun_get_alloc {raws : List (List Char)} {σ : InternerMap}
    {i : Nat} {s : List Char} {n : Nat}
    (hr : raws.get? i = some (quoteRaw s)) (hs : parseU64 s = none)
    (ho : (internRun σ raws).1.get? i = some (.ok n)) :
    lookupId (internRun σ raws).2 s = some n := by
  induction raws generalizing σ i with
  | nil => simp at hr
  | cons r rest ih =>
    cases i with
    | zero =>
      simp only [List.get?_cons_zero, Option.some.injEq] at hr
      subst hr
      simp only [internRun, List.get?_cons_zero, Option.some.injEq] at ho
      obtain ⟨δ, hδ⟩ := internRun_extends (intern σ (quoteRaw s)).2 rest
      simp only [internRun]
      rw [hδ]
      rw [intern_quoted σ s hs] at ho ⊢
      cases hl : lookupId σ s with
      | some id =>
        rw [hl] at ho
        have ho' : InternResult.ok id = InternResult.ok n := ho
        injection ho' with hid
        show lookupId (σ ++ δ) s = some n
        exact lookupId_append δ (by rw [hl, hid])
      | none =>
        rw [hl] at ho
        have ho' : InternResult.ok (σ.length + 1) = InternResult.ok n := ho
        injection ho' with hid
        show lookupId ((σ ++ [s]) ++ δ) s = some n
        exact lookupId_append δ (by rw [lookupId_insert hl, hid])
    | succ j =>
      simp only [List.get?_cons_succ] at hr
      simp only [internRun, List.get?_cons_succ] at ho
      simp only [internRun]
      exact ih hr ho

/-- C10: `intern` leaves the shared mapping unchanged for empty, unquoted,
quoted-numeric, and already-present quoted non-numeric inputs, and extends it
by exactly one entry exactly when a quoted non-numeric string not yet present
is interned — the map after `intern` is `internMapEffect`. -/
theorem intern_map_frame_effect :
    ∀ (σ : InternerMap) (raw : List Char),
      (intern σ raw).2 = internMapEffect σ raw := by
  intro σ raw
  cases raw with
  | nil => rfl
  | cons c rest =>
    by_cases hc : c = '"'
    · subst hc
      cases hre : rest.isEmpty with
      | true => simp [intern, internMapEffect, hre]
      | false =>
        rw [intern_quoted_raw σ hre]
        simp only [internMapEffect, hre, ne_eq, not_true_eq_false, if_false,
          Bool.false_eq_true]
        cases hp : parseU64 rest.dropLast with
        | some m => rfl
        | none => cases hl : lookupId σ rest.dropLast <;> rfl
    · rw [intern_unquoted hc]
      simp only [internMapEffect, ne_eq, hc, not_false_eq_true, if_true]
      cases hp : parseU64 (c :: rest) <;> rfl

/-- C2 counterexample: one `Interner` instance, two distinct inputs — the
quoted non-numeric string `"a"` and the bare number `1` — and both calls
return the same identifier `1`: an allocated id collides with a numeric
passthrough id, so the returned identifiers are not pairwise distinct across
distinct inputs. -/
theorem intern_distinct_inputs_share_id :
    (internRun [] [quoteRaw "a".data, "1".data]).1 =
      [InternResult.ok 1, InternResult.ok 1] ∧
    quoteRaw "a".data ≠ "1".data := by decide

/-- C2 amended: within one `Interner` instance, the identifiers returned for
quoted non-numeric inputs with distinct inner strings are pairwise distinct
across any call sequence (numeric passthrough ids, by contrast, may collide
with allocated ids, as the counterexample shows; the source documents the
assumption that an indexer does not mix identifier styles). -/
theorem intern_alloc_ids_pairwise_distinct :
    ∀ (σ : InternerMap) (raws : List (List Char)) (i j : Nat)
      (s₁ s₂ : List Char) (n₁ n₂ : Nat),
      raws.get? i = some (quoteRaw s₁) → parseU64 s₁ = none →
      raws.get? j = some (quoteRaw s₂) → parseU64 s₂ = none →
      s₁ ≠ s₂ →
      (internRun σ raws).1.get? i = some (.ok n₁) →
      (internRun σ raws).1.get? j = some (.ok n₂) →
      n₁ ≠ n₂ := by
  intro σ raws i j s₁ s₂ n₁ n₂ hri hsi hrj hsj hne hoi hoj heq
  exact hne (lookupId_inj (internRun_get_alloc hri hsi hoi)
    (heq ▸ internRun_get_alloc hrj hsj hoj))

theorem intern_alloc_ids_pairwise_distinct_witness : (1 : Nat) ≠ 2 :=
  intern_alloc_ids_pairwise_distinct [] [quoteRaw "a".data, quoteRaw "b".data]
    0 1 "a".data "b".data 1 2 (by decide) (by decide) (by decide) (by decide)
    (by decide) (by decide) (by decide)

/-- C3: `intern` of empty input returns `0`; the quoted string `"123"` and
the bare bytes `123` both return the numeric value `123`; and in each of
these cases the shared mapping is neither consulted nor extended — the
result and the unchanged map do not depend on the map at all. -/
theorem intern_empty_and_numeric_passthrough :
    ∀ σ : InternerMap,
      intern σ [] = (.ok 0, σ) ∧
      intern σ (quoteRaw "123".data) = (.ok 123, σ) ∧
      intern σ "123".data = (.ok 123, σ) := by
  intro σ
  refine ⟨rfl, ?_, ?_⟩ <;> rfl

/-- C4: on one `Interner` instance, two distinct non-numeric quoted strings
never receive the same identifier, whatever other calls happen in between;
and repeating any successfully interned input after any further call
sequence returns the same identifier again. -/
theorem intern_injective_and_idempotent :
    (∀ (σ : InternerMap) (s₁ s₂ : List Char) (ops : List (List Char))
        (n₁ n₂ : Nat) (σ₁ σ₂ : InternerMap),
      parseU64 s₁ = none → parseU64 s₂ = none → s₁ ≠ s₂ →
      intern σ (quoteRaw s₁) = (.ok n₁, σ₁) →
      intern (internRun σ₁ ops).2 (quoteRaw s₂) = (.ok n₂, σ₂) →
      n₁ ≠ n₂) ∧
    (∀ (σ σ₁ : InternerMap) (raw : List Char) (ops : List (List Char))
        (n : Nat),
      intern σ raw = (.ok n, σ₁) →
      intern (internRun σ₁ ops).2 raw = (.ok n, (internRun σ₁ ops).2)) := by
  constructor
  · intro σ s₁ s₂ ops n₁ n₂ σ₁ σ₂ hs₁ hs₂ hne h₁ h₂ heq
    obtain ⟨δ₁, hδ₁⟩ := internRun_extends σ₁ ops
    have hl₁ : lookupId (internRun σ₁ ops).2 s₁ = some n₁ := by
      rw [hδ₁]
      exact lookupId_append δ₁ (intern_quoted_ok hs₁ h₁)
    have hl₂ : lookupId σ₂ s₂ = some n₂ := intern_quoted_ok hs₂ h₂
    obtain ⟨δ₂, hδ₂⟩ := intern_extends (internRun σ₁ ops).2 (quoteRaw s₂)
    rw [h₂] at hδ₂
    have hδ₂' : σ₂ = (internRun σ₁ ops).2 ++ δ₂ := hδ₂
    have hl₁' : lookupId σ₂ s₁ = some n₁ := by
      rw [hδ₂']
      exact lookupId_append δ₂ hl₁
    exact hne (lookupId_inj hl₁' (heq ▸ hl₂))
  · intro σ σ₁ raw ops n h
    obtain ⟨δ, hδ⟩ := internRun_extends σ₁ ops
    rw [hδ]
    exact intern_stable δ h

theorem intern_injective_and_idempotent_witness :
    (1 : Nat) ≠ 2 ∧
    intern (internRun ["a".data] ["99".data]).2 (quoteRaw "a".data) =
      (.ok 1, (internRun ["a".data] ["99".data]).2) :=
  ⟨intern_injective_and_idempotent.1 [] "a".data "b".data ["99".data] 1 2
      ["a".data] ["a".data, "b".data] (by decide) (by decide) (by decide)
      (by decide) (by decide),
    intern_injective_and_idempotent.2 [] ["a".data] (quoteRaw "a".data)
      ["99".data] 1 (by decide)⟩

theorem deserialize_element_vertex {σ σ₁ : InternerMap} {line : JValue}
    {env : Envelope} {n : Nat}
    (henv : parseEnvelope line = some env)
    (hty : env.ty ≠ "edge")
    (hid : resolveIdValue σ env.idv = (.ok n, σ₁)) :
    deserialize_element σ line = vertexPayloadStep σ₁ n env line := by
  simp only [deserialize_element, henv, hid, vertexPayloadStep]
  rw [if_neg hty]

theorem deserialize_diagnostics_ok :
    ∀ {line : JValue} {p : Payload},
      deserialize_diagnostics line = .ok p → p = .diagnostics [] := by
  intro line p h
  cases line with
  | obj fs =>
    simp only [deserialize_diagnostics] at h
    split at h
    · simp only [Except.ok.injEq] at h
      exact h.symm
    · exact absurd h (by simp)
  | null => exact absurd h (by simp [deserialize_diagnostics])
  | bool b => exact absurd h (by simp [deserialize_diagnostics])
  | num m => exact absurd h (by simp [deserialize_diagnostics])
  | str s => exact absurd h (by simp [deserialize_diagnostics])
  | arr xs => exact absurd h (by simp [deserialize_diagnostics])

theorem deserialize_diagnostics_err {fs : List (String × JValue)}
    (h : ¬ ∃ s₁ s₂ : String, getField fs "name" = some (.str s₁) ∧
        getField fs "version" = some (.str s₂)) :
    deserialize_diagnostics (.obj fs) = .error .JSONParse := by
  simp only [deserialize_diagnostics]
  rcases hn : getField fs "name" with _ | v
  · rcases hv : getField fs "version" with _ | w
    · rfl
    · cases w <;> rfl
  · rcases hv : getField fs "version" with _ | w
    · cases v <;> rfl
    · cases v <;> cases w <;> first
        | rfl
        | exact absurd ⟨_, _, hn, hv⟩ h

/-- C5 (code bug): for records whose envelope parses but whose `id` is null,
a boolean, a number outside `u64` (negative or float), an array, or an
object, `deserialize_element` panics — `payload.id.as_u64().unwrap()` on
`None` — instead of returning the typed decode error the spec requires. -/
theorem deserialize_element_panics_on_nonscalar_id :
    deserialize_element []
        (.obj [("id", .null), ("type", .str "vertex"), ("label", .str "x")]) =
      (.panic, []) ∧
    deserialize_element []
        (.obj [("id", .bool true), ("type", .str "vertex"),
          ("label", .str "x")]) =
      (.panic, []) ∧
    deserialize_element []
        (.obj [("id", .num .nonU64), ("type", .str "vertex"),
          ("label", .str "x")]) =
      (.panic, []) ∧
    deserialize_element []
        (.obj [("id", .arr []), ("type", .str "vertex"), ("label", .str "x")]) =
      (.panic, []) ∧
    deserialize_element []
        (.obj [("id", .obj []), ("type", .str "vertex"), ("label", .str "x")]) =
      (.panic, []) := by
  refine ⟨rfl, rfl, rfl, rfl, rfl⟩

/-- C6 counterexample: a `diagnosticResult` vertex record without the
`name`/`version` string fields is a decode error — decoding does not succeed
"regardless of the rest of the record's content". -/
theorem diagnostics_decode_fails_without_name_version :
    deserialize_element []
        (.obj [("id", .num (.uint 1)), ("type", .str "vertex"),
          ("label", .str "diagnosticResult")]) =
      (.err .JSONParse, []) := by
  rfl

/-- C6 amended: for a vertex record labelled `diagnosticResult` (envelope
parsed, id resolved), decoding succeeds exactly when the record carries
string fields `name` and `version` (the `packageInformation` shape the
decoder parses and ignores) — it fails with a `JSONParse` error whenever
either field is missing or not a string; on success the payload is always
the empty diagnostics list, and a successful decode never carries a
non-empty list. -/
theorem diagnostics_decode_characterization :
    ∀ (σ σ₁ : InternerMap) (fs : List (String × JValue)) (env : Envelope)
      (n : Nat),
      parseEnvelope (.obj fs) = some env →
      env.label = "diagnosticResult" →
      env.ty ≠ "edge" →
      resolveIdValue σ env.idv = (.ok n, σ₁) →
      ((∀ s₁ s₂ : String,
          getField fs "name" = some (.str s₁) →
          getField fs "version" = some (.str s₂) →
          deserialize_element σ (.obj fs) =
            (.ok ⟨n, env.ty, env.label, some (.diagnostics [])⟩, σ₁)) ∧
        (¬(∃ s₁ s₂ : String, getField fs "name" = some (.str s₁) ∧
            getField fs "version" = some (.str s₂)) →
          deserialize_element σ (.obj fs) = (.err .JSONParse, σ₁)) ∧
        (∀ (el : Element) (σ₂ : InternerMap),
          deserialize_element σ (.obj fs) = (.ok el, σ₂) →
          ∀ ds, el.payload = some (.diagnostics ds) → ds = [])) := by
  intro σ σ₁ fs env n henv hlab hty hid
  have htab : vertexDeserializers env.label = some deserialize_diagnostics := by
    rw [hlab]
    rfl
  have hstep := deserialize_element_vertex henv hty hid
  simp only [vertexPayloadStep, htab] at hstep
  refine ⟨?_, ?_, ?_⟩
  · intro s₁ s₂ hn hv
    rw [hstep]
    simp only [deserialize_diagnostics, hn, hv]
  · intro hno
    rw [hstep, deserialize_diagnostics_err hno]
  · intro el σ₂ hok ds hpl
    cases hdd : deserialize_diagnostics (.obj fs) with
    | ok p =>
      rw [hdd] at hstep
      rw [hok] at hstep
      have hp := deserialize_diagnostics_ok hdd
      subst hp
      simp only [Prod.mk.injEq, DecodeResult.ok.injEq] at hstep
      obtain ⟨hel, -⟩ := hstep
      subst hel
      have hpl' : some (Payload.diagnostics ([] : List Diagnostic)) =
          some (.diagnostics ds) := hpl
      simp only [Option.some.injEq, Payload.diagnostics.injEq] at hpl'
      exact hpl'.symm
    | error e =>
      rw [hdd] at hstep
      rw [hok] at hstep
      exact absurd hstep (by simp)

theorem diagnostics_decode_characterization_witness :
    deserialize_element []
        (.obj [("id", .num (.uint 1)), ("type", .str "vertex"),
          ("label", .str "diagnosticResult"), ("name", .str "n"),
          ("version", .str "v")]) =
      (.ok ⟨1, "vertex", "diagnosticResult", some (.diagnostics [])⟩, []) :=
  (diagnostics_decode_characterization [] []
      [("id", .num (.uint 1)), ("type", .str "vertex"),
        ("label", .str "diagnosticResult"), ("name", .str "n"),
        ("version", .str "v")]
      ⟨.num (.uint 1), "vertex", "diagnosticResult"⟩ 1 rfl rfl (by decide)
      rfl).1 "n" "v" rfl rfl

/-- C7 counterexample: a vertex record with an unrecognized label but a
string id whose contents are not numeric fails with the typed `IDParse`
error (the interner parses the unquoted contents as an integer), so
`deserialize_element` does not succeed for every vertex record with an
unrecognized label. -/
theorem unknown_label_vertex_error_on_string_id :
    deserialize_element []
        (.obj [("id", .str "abc"), ("type", .str "vertex"),
          ("label", .str "zzz")]) =
      (.err .IDParse, []) := by
  rfl

/-- C7 amended: for a vertex record whose label is not in
`VERTEX_DESERIALIZERS` and whose `id` resolves (an integer, or a string the
interner accepts), decoding succeeds with an absent payload — the
unrecognized label itself is never a decode error. -/
theorem unknown_label_vertex_absent_payload :
    ∀ (σ σ₁ : InternerMap) (line : JValue) (env : Envelope) (n : Nat),
      parseEnvelope line = some env →
      env.ty ≠ "edge" →
      vertexDeserializers env.label = none →
      resolveIdValue σ env.idv = (.ok n, σ₁) →
      deserialize_element σ line = (.ok ⟨n, env.ty, env.label, none⟩, σ₁) := by
  intro σ σ₁ line env n henv hty htab hid
  rw [deserialize_element_vertex henv hty hid]
  simp only [vertexPayloadStep, htab]

theorem unknown_label_vertex_absent_payload_witness :
    deserialize_element []
        (.obj [("id", .num (.uint 7)), ("type", .str "vertex"),
          ("label", .str "definitionResult")]) =
      (.ok ⟨7, "vertex", "definitionResult", none⟩, []) :=
  unknown_label_vertex_absent_payload [] []
    (.obj [("id", .num (.uint 7)), ("type", .str "vertex"),
      ("label", .str "definitionResult")])
    ⟨.num (.uint 7), "vertex", "definitionResult"⟩ 7 rfl (by decide) rfl rfl

/-- C9: for every record whose envelope parses and whose `type` is any
string other than `"edge"`, `deserialize_element` takes the vertex path:
the record is never rejected for an unknown kind, and the payload is
determined solely by the `VERTEX_DESERIALIZERS` label dispatch
(`vertexPayloadStep`). -/
theorem non_edge_type_dispatches_as_vertex :
    ∀ (σ σ₁ : InternerMap) (line : JValue) (env : Envelope) (n : Nat),
      parseEnvelope line = some env →
      env.ty ≠ "edge" →
      resolveIdValue σ env.idv = (.ok n, σ₁) →
      deserialize_element σ line = vertexPayloadStep σ₁ n env line := by
  intro σ σ₁ line env n henv hty hid
  exact deserialize_element_vertex henv hty hid

theorem non_edge_type_dispatches_as_vertex_witness :
    deserialize_element []
        (.obj [("id", .num (.uint 3)), ("type", .str "wibble"),
          ("label", .str "moniker"), ("kind", .str "k"), ("scheme", .str ""),
          ("identifier", .str "i")]) =
      vertexPayloadStep [] 3 ⟨.num (.uint 3), "wibble", "moniker"⟩
        (.obj [("id", .num (.uint 3)), ("type", .str "wibble"),
          ("label", .str "moniker"), ("kind", .str "k"), ("scheme", .str ""),
          ("identifier", .str "i")]) :=
  non_edge_type_dispatches_as_vertex [] []
    (.obj [("id", .num (.uint 3)), ("type", .str "wibble"),
      ("label", .str "moniker"), ("kind", .str "k"), ("scheme", .str ""),
      ("identifier", .str "i")])
    ⟨.num (.uint 3), "wibble", "moniker"⟩ 3 rfl (by decide) rfl

theorem resolveIdValue_extends (σ : InternerMap) (v : JValue) :
    ∃ δ, (resolveIdValue σ v).2 = σ ++ δ := by
  cases v with
  | str s => exact intern_extends σ s.data
  | num m => cases m <;> exact ⟨[], by simp [resolveIdValue, asU64]⟩
  | null => exact ⟨[], by simp [resolveIdValue, asU64]⟩
  | bool b => exact ⟨[], by simp [resolveIdValue, asU64]⟩
  | arr xs => exact ⟨[], by simp [resolveIdValue, asU64]⟩
  | obj fs => exact ⟨[], by simp [resolveIdValue, asU64]⟩

theorem resolveOptField_extends (σ : InternerMap) (o : Option JValue) :
    ∃ δ, (resolveOptField σ o).2 = σ ++ δ := by
  cases o with
  | none => exact ⟨[], by simp [resolveOptField]⟩
  | some v => exact resolveIdValue_extends σ v

theorem resolveInVs_extends (σ : InternerMap) (xs : List JValue) :
    ∃ δ, (resolveInVs σ xs).2 = σ ++ δ := by
  induction xs generalizing σ with
  | nil => exact ⟨[], by simp [resolveInVs]⟩
  | cons v rest ih =>
    rcases hr : resolveIdValue σ v with ⟨res, σ'⟩
    obtain ⟨δ₁, hδ₁⟩ := resolveIdValue_extends σ v
    rw [hr] at hδ₁
    have hδ₁' : σ' = σ ++ δ₁ := hδ₁
    cases res with
    | ok n =>
      obtain ⟨δ₂, hδ₂⟩ := ih σ'
      rcases hrest : resolveInVs σ' rest with ⟨os, σ₂⟩
      rw [hrest] at hδ₂
      have hδ₂' : σ₂ = σ' ++ δ₂ := hδ₂
      refine ⟨δ₁ ++ δ₂, ?_⟩
      simp only [resolveInVs, hr, hrest]
      cases os with
      | none =>
        show σ₂ = σ ++ (δ₁ ++ δ₂)
        rw [hδ₂', hδ₁', List.append_assoc]
      | some ns =>
        show σ₂ = σ ++ (δ₁ ++ δ₂)
        rw [hδ₂', hδ₁', List.append_assoc]
    | err =>
      refine ⟨δ₁, ?_⟩
      simp only [resolveInVs, hr]
      exact hδ₁'
    | panic =>
      refine ⟨δ₁, ?_⟩
      simp only [resolveInVs, hr]
      exact hδ₁'

theorem resolveInVsOpt_extends (σ : InternerMap) (o : Option (List JValue)) :
    ∃ δ, (resolveInVsOpt σ o).2 = σ ++ δ := by
  cases o with
  | none => exact ⟨[], by simp [resolveInVsOpt]⟩
  | some xs => exact resolveInVs_extends σ xs

/-- C8: for every edge record — whatever combination of `inV`, `inVs` and
`document` it carries — whose fields resolve, decoding yields the Edge
payload assembled from exactly those resolutions: `out_v` is the required
`outV` resolved through the interner when it is a string and taken directly
when an integer; an omitted `inV` gives the sentinel 0, an omitted `inVs`
the empty list, and an omitted `document` 0; string-typed `outV`/`inV`
resolve to exactly the ids that interning those strings directly (on the
resulting interner) returns; and a record without `outV` is a decode
error. -/
theorem edge_decode_defaults_and_resolution :
    (∀ (σ σ₁ σ₂ σ₃ σ₄ : InternerMap) (fs : List (String × JValue))
        (ov : JValue) (invsOpt : Option (List JValue)) (nov niv ndoc : Nat)
        (ivs : List Nat),
      getField fs "outV" = some ov →
      parseInVsField fs = some invsOpt →
      resolveIdValue σ ov = (.ok nov, σ₁) →
      resolveOptField σ₁ (getField fs "inV") = (.ok niv, σ₂) →
      resolveOptField σ₂ (getField fs "document") = (.ok ndoc, σ₃) →
      resolveInVsOpt σ₃ invsOpt = (some ivs, σ₄) →
      deserialize_edge σ (.obj fs) = (.ok (.edge ⟨nov, niv, ivs, ndoc⟩), σ₄) ∧
        (getField fs "inV" = none → niv = 0 ∧ σ₂ = σ₁) ∧
        (getField fs "inVs" = none → ivs = [] ∧ σ₄ = σ₃) ∧
        (getField fs "document" = none → ndoc = 0 ∧ σ₃ = σ₂) ∧
        (∀ u, ov = .num (.uint u) → nov = u ∧ σ₁ = σ) ∧
        (∀ s : String, ov = .str s → intern σ₄ s.data = (.ok nov, σ₄)) ∧
        (∀ t : String, getField fs "inV" = some (.str t) →
          intern σ₄ t.data = (.ok niv, σ₄))) ∧
    (∀ (σ : InternerMap) (fs : List (String × JValue)),
      getField fs "outV" = none →
      deserialize_edge σ (.obj fs) = (.err .JSONParse, σ)) := by
  constructor
  · intro σ σ₁ σ₂ σ₃ σ₄ fs ov invsOpt nov niv ndoc ivs hov hinvs hrov hriv
      hrdoc hrinvs
    obtain ⟨δb, hb⟩ := resolveOptField_extends σ₁ (getField fs "inV")
    rw [hriv] at hb
    have hb' : σ₂ = σ₁ ++ δb := hb
    obtain ⟨δc, hc⟩ := resolveOptField_extends σ₂ (getField fs "document")
    rw [hrdoc] at hc
    have hc' : σ₃ = σ₂ ++ δc := hc
    obtain ⟨δd, hd⟩ := resolveInVsOpt_extends σ₃ invsOpt
    rw [hrinvs] at hd
    have hd' : σ₄ = σ₃ ++ δd := hd
    refine ⟨?_, ?_, ?_, ?_, ?_, ?_, ?_⟩
    · simp only [deserialize_edge, hov, hinvs, hrov, hriv, hrdoc, hrinvs]
    · intro h
      rw [h] at hriv
      simp only [resolveOptField, Prod.mk.injEq, InternResult.ok.injEq] at hriv
      exact ⟨hriv.1.symm, hriv.2.symm⟩
    · intro h
      have hio : invsOpt = none := by
        have h₂ : parseInVsField fs = some none := by
          simp [parseInVsField, h]
        rw [hinvs] at h₂
        exact Option.some.inj h₂
      subst hio
      simp only [resolveInVsOpt, Prod.mk.injEq, Option.some.injEq] at hrinvs
      exact ⟨hrinvs.1.symm, hrinvs.2.symm⟩
    · intro h
      rw [h] at hrdoc
      simp only [resolveOptField, Prod.mk.injEq, InternResult.ok.injEq] at hrdoc
      exact ⟨hrdoc.1.symm, hrdoc.2.symm⟩
    · intro u hu
      subst hu
      simp only [resolveIdValue, asU64, Prod.mk.injEq,
        InternResult.ok.injEq] at hrov
      exact ⟨hrov.1.symm, hrov.2.symm⟩
    · intro s hs
      subst hs
      have hint : intern σ s.data = (.ok nov, σ₁) := hrov
      have hσ₄ : σ₄ = σ₁ ++ (δb ++ δc ++ δd) := by
        rw [hd', hc', hb']
        simp [List.append_assoc]
      rw [hσ₄]
      exact intern_stable _ hint
    · intro t ht
      rw [ht] at hriv
      have hint : intern σ₁ t.data = (.ok niv, σ₂) := hriv
      have hσ₄ : σ₄ = σ₂ ++ (δc ++ δd) := by
        rw [hd', hc']
        simp [List.append_assoc]
      rw [hσ₄]
      exact intern_stable _ hint
  · intro σ fs hov
    simp only [deserialize_edge, hov]

theorem edge_decode_defaults_and_resolution_witness :
    deserialize_edge []
        (.obj [("outV", .num (.uint 2)), ("inVs", .arr [.num (.uint 4)])]) =
      (.ok (.edge ⟨2, 0, [4], 0⟩), []) ∧
    deserialize_edge []
        (.obj [("outV", .str "2"), ("inV", .str "\"x\""),
          ("document", .str "7"), ("inVs", .arr [.str "\"x\""])]) =
      (.ok (.edge ⟨2, 1, [1], 7⟩), ["x".data]) ∧
    deserialize_edge [] (.obj [("label", .str "contains")]) =
      (.err .JSONParse, []) :=
  ⟨(edge_decode_defaults_and_resolution.1 [] [] [] [] []
      [("outV", .num (.uint 2)), ("inVs", .arr [.num (.uint 4)])]
      (.num (.uint 2)) (some [.num (.uint 4)]) 2 0 0 [4]
      rfl rfl rfl rfl rfl rfl).1,
    (edge_decode_defaults_and_resolution.1 [] [] ["x".data] ["x".data]
      ["x".data]
      [("outV", .str "2"), ("inV", .str "\"x\""), ("document", .str "7"),
        ("inVs", .arr [.str "\"x\""])]
      (.str "2") (some [.str "\"x\""]) 2 1 7 [1]
      rfl rfl rfl (by decide) (by decide) (by decide)).1,
    edge_decode_defaults_and_resolution.2 [] [("label", .str "contains")] rfl⟩

theorem decodeAll_length (σ : InternerMap) (lines : List JValue) :
    (decodeAll σ lines).1.length = lines.length := by
  induction lines generalizing σ with
  | nil => rfl
  | cons l rest ih => simp only [decodeAll, List.length_cons, ih]

theorem slotted_cons (wc : Nat) (l : JValue) (rest : List JValue) :
    slotted wc (l :: rest) =
      (0 % wc, l) :: (List.enumFrom 1 rest).map (fun p => (p.1 % wc, p.2)) :=
  rfl

theorem drainBatch_empty_cons (q : Nat × DecodeResult Element)
    (qs : List (Nat × DecodeResult Element)) :
    drainBatch [] (q :: qs) = none := by
  rcases q with ⟨i, x⟩
  simp [drainBatch, sequencerWrite]

/-- C1 (code bug): for every nonempty input — in particular any `M` lines
with `M` divisible by the worker count — the pipeline emits nothing at all:
the aggregator's reorder buffer is `Vec::with_capacity(*WORKER_COUNT)`, a
vector of length 0, so the first `elements[idx] = …` store
(src/reader/reader.rs:139) indexes out of bounds and the aggregator thread
panics before anything reaches the output channel, while decoding the same
lines independently in input order yields one result per line. This
contradicts the claimed order-preserving emission and the repo's own
`basic` test, which feeds seven lines and asserts seven received results. -/
theorem pipeline_emits_nothing_on_any_input :
    ∀ (wc : Nat) (σ : InternerMap) (lines : List JValue),
      1 ≤ wc → lines ≠ [] →
      pipelineModel wc σ lines = none ∧
      (decodeAll σ lines).1.length = lines.length := by
  intro wc σ lines hwc hne
  constructor
  · obtain ⟨l, rest, rfl⟩ : ∃ l rest, lines = l :: rest := by
      cases lines with
      | nil => exact absurd rfl hne
      | cons a b => exact ⟨a, b, rfl⟩
    obtain ⟨w, rfl⟩ : ∃ w, wc = w + 1 := ⟨wc - 1, by omega⟩
    rw [pipelineModel, slotted_cons]
    simp only [read_lines, List.length_cons]
    simp only [read_lines_go, List.take_succ_cons, decodeBatch]
    rw [drainBatch_empty_cons]
  · exact decodeAll_length σ lines

theorem pipeline_emits_nothing_witness :
    (1 : Nat) ≤ 1 ∧
    (pipelineModel 1 []
        [.obj [("id", .num (.uint 1)), ("type", .str "vertex"),
          ("label", .str "project")]] = none ∧
      (decodeAll []
        [.obj [("id", .num (.uint 1)), ("type", .str "vertex"),
          ("label", .str "project")]]).1.length =
        [JValue.obj [("id", .num (.uint 1)), ("type", .str "vertex"),
          ("label", .str "project")]].length) :=
  ⟨by decide,
    pipeline_emits_nothing_on_any_input 1 []
      [.obj [("id", .num (.uint 1)), ("type", .str "vertex"),
        ("label", .str "project")]]
      (by decide) (List.cons_ne_nil _ _)⟩

theorem intern_empty_and_numeric_passthrough_witness :
    intern ["q".data] [] = (.ok 0, ["q".data]) ∧
    intern ["q".data] (quoteRaw "123".data) = (.ok 123, ["q".data]) ∧
    intern ["q".data] "123".data = (.ok 123, ["q".data]) :=
  intern_empty_and_numeric_passthrough ["q".data]

theorem intern_map_frame_effect_witness :
    (intern ["x".data] (quoteRaw "y".data)).2 =
      internMapEffect ["x".data] (quoteRaw "y".data) :=
  intern_map_frame_effect ["x".data] (quoteRaw "y".data)
